import Mathlib

/-!
# Verification of the manim3 lazy evaluation core

A shallow embedding of the reactive dependency-tracking attribute cache in
`manim3/lazy/lazy_descriptor.py` (classes `Registered`, `Registration`,
`Cache`, `Tree`, `LazyDescriptor`), the legacy descriptors in
`manim3/utils/lazy.py`, and — modelled from the specification, since
`lazy_slot.py` / `lazy_object.py` are not in the source tree — the per-instance
slot table (`LazySlot`, `LazyObject._get_slot`).

Python object identity is modelled by allocation ids: a `Registered` handle
carries the id it received from its registration's allocation counter together
with the wrapped value, so structural equality of handles coincides with
Python's identity comparison as long as ids are allocated monotonically.
Elements are modelled as natural numbers; an element that serves as an
intermediate step of a dependency chain is interpreted as the id of a
`LazyObject` instance.
-/

namespace Manim3Lazy

/-- Element values.  Dependency-chain traversal treats an element as the id of
a `LazyObject` instance. -/
abbrev Elem := Nat

/-- A slot identifier: the owning instance's id together with the descriptor
name (spec §3: a slot exists once per (owning instance, attribute name)). -/
abbrev Sid := Nat × String

/-- `Registered[T]` from `lazy_descriptor.py`: an identity-comparable handle
wrapping a value.  `id` is the allocation index assigned by the registration
that created the handle, standing in for Python object identity. -/
structure Registered (V : Type) where
  id : Nat
  value : V
deriving DecidableEq, Repr

/-- Association-list lookup with Python `dict` semantics: the value stored
under the first matching key, if any. -/
def lookupA [DecidableEq K] : List (K × V) → K → Option V
  | [], _ => none
  | (k', v') :: l, k => if k' = k then some v' else lookupA l k

/-- Association-list store with Python `dict` semantics: assignment to an
existing key keeps its position in insertion order, a fresh key appends. -/
def updateA [DecidableEq K] : List (K × V) → K → V → List (K × V)
  | [], k, v => [(k, v)]
  | (k', v') :: l, k, v =>
    if k' = k then (k, v) :: l else (k', v') :: updateA l k v

/-- `Registration[KT, VT]` from `lazy_descriptor.py`: a table mapping a key to
its unique `Registered` handle.  The Python class is a
`weakref.WeakValueDictionary`; dead-handle reclamation is not observable to the
claims, so the table holds the live entries.  `nextId` is the allocation
counter for handle identities. -/
structure Registration (K V : Type) where
  entries : List (K × Registered V)
  nextId : Nat
deriving DecidableEq, Repr

/-- The empty registration. -/
def Registration.empty : Registration K V := ⟨[], 0⟩

/-- Dictionary lookup `self.get(key)`. -/
def Registration.get [DecidableEq K] (r : Registration K V) (k : K) :
    Option (Registered V) :=
  lookupA r.entries k

/-- `Registration.register(key, value)`: return the existing handle for `key`
if one is present, otherwise wrap `value` in a fresh handle, store it under
`key`, and return it. -/
def Registration.register [DecidableEq K] (r : Registration K V) (k : K)
    (v : V) : Registered V × Registration K V :=
  match r.get k with
  | some registeredValue => (registeredValue, r)
  | none =>
    let registeredValue : Registered V := ⟨r.nextId, v⟩
    (registeredValue, ⟨r.entries ++ [(k, registeredValue)], r.nextId + 1⟩)

/-- The two failure modes of `Cache.set`: the `assert key not in self`
assertion, and the `StopIteration` escaping from `next(iter(self))` when the
eviction branch runs on an empty mapping. -/
inductive CacheSetError where
  | keyPresent
  | popEmpty
deriving DecidableEq, Repr

/-- `Cache[KT, VT]` from `lazy_descriptor.py`: a capacity-bounded mapping.
`entries` is kept in dictionary insertion order, oldest first.  The Python
class is a `weakref.WeakKeyDictionary`; weak reclamation is not observable to
the claims. -/
structure Cache (K V : Type) where
  capacity : Nat
  entries : List (K × V)
deriving DecidableEq, Repr

/-- The empty cache of a given capacity (`Cache(capacity=...)`). -/
def Cache.empty (capacity : Nat) : Cache K V := ⟨capacity, []⟩

/-- Dictionary lookup `self.get(key)`; a hit does not reorder entries, so a
lookup never changes the eviction order. -/
def Cache.get [DecidableEq K] (c : Cache K V) (k : K) : Option V :=
  lookupA c.entries k

/-- `Cache.set(key, value)`:
`assert key not in self`; if `len(self) == self._capacity`, evict the single
oldest entry via `self.pop(next(iter(self)))` (which raises `StopIteration`
when the mapping is empty); then insert `key`, which appends at the end of the
insertion order. -/
def Cache.set [DecidableEq K] (c : Cache K V) (k : K) (v : V) :
    Except CacheSetError (Cache K V) :=
  if (c.get k).isSome then .error .keyPresent
  else if c.entries.length = c.capacity then
    match c.entries with
    | [] => .error .popEmpty
    | _ :: rest => .ok ⟨c.capacity, rest ++ [(k, v)]⟩
  else .ok ⟨c.capacity, c.entries ++ [(k, v)]⟩

/-- A sequence of `Cache.set` calls, stopping at the first error. -/
def Cache.runSets [DecidableEq K] (c : Cache K V) :
    List (K × V) → Except CacheSetError (Cache K V)
  | [] => .ok c
  | (k, v) :: kvs =>
    match c.set k v with
    | .error e => .error e
    | .ok c' => c'.runSets kvs

/-- The failure modes of the descriptor machinery:
`readOnlyAttribute` is the error raised by `check_writability` on a Property
slot; `missingDescriptor` models a `KeyError` on a slot/descriptor lookup;
`arityMismatch` models the unpack failure of `(element,) = elements`;
`fuelExhausted` is the cut-off for an unboundedly recursive (cyclic)
dependency resolution; `cacheFailure` wraps an error escaping `Cache.set`. -/
inductive LazyError where
  | readOnlyAttribute
  | missingDescriptor
  | arityMismatch
  | fuelExhausted
  | cacheFailure (e : CacheSetError)
deriving DecidableEq, Repr

mutual
/-- `Tree`/`TupleTree` from `lazy_descriptor.py`: the possibly-branching
structure gathering dependency chains.  A `Tree` whose `_children` is `None`
is a leaf holding `_content`; expanding a leaf turns it into a node.  The
children tuple is given its own inductive so that equality is decidable. -/
inductive TupleTree (T : Type) : Type where
  | leaf : T → TupleTree T
  | node : TreeList T → TupleTree T
/-- The children tuple of a `TupleTree` node. -/
inductive TreeList (T : Type) : Type where
  | nil : TreeList T
  | cons : TupleTree T → TreeList T → TreeList T
end

deriving instance DecidableEq for TupleTree, TreeList
deriving instance Repr for TupleTree, TreeList

/-- Build the children tuple of a plural expansion,
`tuple(Tree(element) for element in elements)`. -/
def TreeList.ofLeaves : List Elem → TreeList Elem
  | [] => .nil
  | e :: es => .cons (.leaf e) (ofLeaves es)

/-- The parameter fingerprint key: the composite of all parameter trees in
their id-keyed nested-tuple form (`tuple(tree.convert(id).as_tuple_tree() for
tree in trees)`). -/
abbrev ParamKey := List (TupleTree Nat)

/-- `tree.convert(id).as_tuple_tree()` composed over all parameter trees.
Elements are identified by their numeric value in this model, so `id` is the
identity function and the converted nested tuple coincides with the tree. -/
def parameterKeyOfTrees (trees : List (TupleTree Elem)) : ParamKey := trees

/-- Modelled from the spec (§4.4 Slot; `lazy/lazy_slot.py` is not in the
source tree): the per-(instance, attribute) cell.  `elements` is the current
tuple of registered elements (`none` when empty/expired), `parameterKey` the
id of the registered fingerprint handle used to derive them (`none` for
variable slots), `linkedSlotIds` the dependency links (for a variable slot:
the property slots reading it; for a property slot: the variable slots it
reads), and `isVariableSlot` records whether the owning descriptor is a
Variable (used by `check_writability`). -/
structure LazySlot where
  elements : Option (List (Registered Elem))
  parameterKey : Option Nat
  linkedSlotIds : List Sid
  isVariableSlot : Bool
deriving DecidableEq, Repr

/-- `LazyDescriptor` from `lazy_descriptor.py`, combining its declaration-time
configuration and its mutable class-level state.  The descriptor's `_name` is
the key under which it is stored in the world, so it is not repeated here.
`methodFn` models `self._decomposer(self._method(*args))`: the user method
applied to the value nested-tuple form of the parameter trees, decomposed into
a flat element tuple.  `callCount` counts invocations of the user method (it
is instrumentation only: no other definition reads it). -/
structure LazyDescriptor where
  parameterNameChains : List (List String)
  isVariable : Bool
  isPlural : Bool
  hasher : Elem → Nat
  freeze : Bool
  methodFn : List (TupleTree Elem) → List Elem
  cache : Cache Nat (List (Registered Elem))
  parameterKeyRegistration : Registration ParamKey ParamKey
  elementRegistration : Registration Nat Elem
  callCount : Nat

/-- The world: the class-level descriptors (keyed by descriptor name) and the
per-instance slot tables (keyed by instance id and descriptor name).  The slot
table is modelled from the spec (§3 Object, §4.6; `lazy/lazy_object.py` is not
in the source tree). -/
structure LazyWorld where
  descriptors : List (String × LazyDescriptor)
  slots : List (Sid × LazySlot)

def LazyWorld.findDescriptor (w : LazyWorld) (name : String) :
    Option LazyDescriptor :=
  lookupA w.descriptors name

def LazyWorld.findSlot (w : LazyWorld) (sid : Sid) : Option LazySlot :=
  lookupA w.slots sid

def LazyWorld.setDescriptor (w : LazyWorld) (name : String)
    (d : LazyDescriptor) : LazyWorld :=
  { w with descriptors := updateA w.descriptors name d }

def LazyWorld.setSlotState (w : LazyWorld) (sid : Sid) (s : LazySlot) :
    LazyWorld :=
  { w with slots := updateA w.slots sid s }

/-- Modelled from the spec (§3 Slot lifecycle; `LazyObject._get_slot` is not
in the source tree): fetch the instance's slot for a descriptor name, creating
an empty slot on first access.  A freshly created slot is empty, has no
dependency links, and takes its writability from the descriptor. -/
def LazyWorld.getSlot (w : LazyWorld) (inst : Nat) (name : String) :
    Except LazyError (LazySlot × LazyWorld) :=
  match w.findSlot (inst, name) with
  | some s => .ok (s, w)
  | none =>
    match w.findDescriptor name with
    | none => .error .missingDescriptor
    | some d =>
      let s : LazySlot := ⟨none, none, [], d.isVariable⟩
      .ok (s, w.setSlotState (inst, name) s)

/-- Modelled from the spec (§4.4 `expire()`): transition a slot to empty.  A
missing slot is left untouched. -/
def LazyWorld.expireSlot (w : LazyWorld) (sid : Sid) : LazyWorld :=
  match w.findSlot sid with
  | none => w
  | some s =>
    w.setSlotState sid { s with elements := none, parameterKey := none }

/-- Modelled from the spec (§4.4 `set(elements, parameter_key,
associated_slots)`): transition a slot to populated and record
`associatedSlotIds` as back-edges, so that each associated slot and this slot
record a mutual dependency link.  Invoked only on slots previously fetched via
`getSlot`; a missing slot is left untouched. -/
def LazyWorld.slotSet (w : LazyWorld) (sid : Sid)
    (elements : List (Registered Elem)) (parameterKey : Option Nat)
    (associatedSlotIds : List Sid) : LazyWorld :=
  match w.findSlot sid with
  | none => w
  | some s =>
    let w1 := w.setSlotState sid
      { s with elements := some elements, parameterKey := parameterKey,
               linkedSlotIds := associatedSlotIds }
    associatedSlotIds.foldl (fun acc a =>
      match acc.findSlot a with
      | none => acc
      | some sa =>
        if sid ∈ sa.linkedSlotIds then acc
        else acc.setSlotState a
          { sa with linkedSlotIds := sa.linkedSlotIds ++ [sid] }) w1

/-- Add one slot to the set of associated variable slots
(`associated_variable_slots.add(slot)`). -/
def insertSid (assoc : List Sid) (sid : Sid) : List Sid :=
  if sid ∈ assoc then assoc else assoc ++ [sid]

/-- Add many slots to the set of associated variable slots
(`associated_variable_slots.update(...)`). -/
def unionSids (assoc : List Sid) (sids : List Sid) : List Sid :=
  sids.foldl insertSid assoc

/-- Register each element under its hash (`LazyDescriptor._register_elements`
without the descriptor record plumbing). -/
def registerElemsAux (hasher : Elem → Nat) :
    Registration Nat Elem → List Elem →
    List (Registered Elem) × Registration Nat Elem
  | reg, [] => ([], reg)
  | reg, e :: es =>
    match reg.register (hasher e) e with
    | (h, reg1) =>
      match registerElemsAux hasher reg1 es with
      | (hs, reg2) => (h :: hs, reg2)

/-- `LazyDescriptor._register_elements`: if the freeze flag is set, freeze each
element first (`freezer` mutates the element in place and does not change its
identity, so it has no observable effect in this model); then register each
element under its hash through the element registration. -/
def LazyDescriptor.registerElements (d : LazyDescriptor)
    (elements : List Elem) : List (Registered Elem) × LazyDescriptor :=
  match registerElemsAux d.hasher d.elementRegistration elements with
  | (hs, reg') => (hs, { d with elementRegistration := reg' })

/-- One chain step at one tree leaf: the body of the innermost loop of
`get_parameter_trees_and_associated_variable_slots` in
`LazyDescriptor.get_elements`.  `ge` is the recursive `get_elements` call used
to resolve the addressed attribute.  The Python `slot` local is a live
reference, so reading its dependency links after the recursive call observes
the state updated by that call; here this is rendered by looking the slot up
again in the world returned by `ge`. -/
def resolveLeaf (ge : LazyWorld → String → Nat →
      Except LazyError (List Elem × LazyWorld))
    (name : String) (w : LazyWorld) (assoc : List Sid) (content : Elem) :
    Except LazyError (TupleTree Elem × LazyWorld × List Sid) :=
  match w.getSlot content name with
  | .error e => .error e
  | .ok (_, w1) =>
    match w1.findDescriptor name with
    | none => .error .missingDescriptor
    | some d =>
      match ge w1 name content with
      | .error e => .error e
      | .ok (elements, w2) =>
        match (if d.isPlural then
                 Except.ok (TupleTree.node (TreeList.ofLeaves elements))
               else match elements with
                 | [e] => Except.ok (TupleTree.leaf e)
                 | _ => Except.error LazyError.arityMismatch) with
        | .error e => .error e
        | .ok t =>
          let assoc1 :=
            if d.isVariable then insertSid assoc (content, name)
            else match w2.findSlot (content, name) with
              | none => assoc
              | some s2 => unionSids assoc s2.linkedSlotIds
          .ok (t, w2, assoc1)

mutual
/-- Apply one chain step to every leaf of a parameter tree (the
`for leaf in tree.iter_leaves()` loop): singular steps replace leaf contents,
plural steps expand leaves into children. -/
def resolveTree (ge : LazyWorld → String → Nat →
      Except LazyError (List Elem × LazyWorld))
    (name : String) (w : LazyWorld) (assoc : List Sid) :
    TupleTree Elem → Except LazyError (TupleTree Elem × LazyWorld × List Sid)
  | .leaf c => resolveLeaf ge name w assoc c
  | .node cs =>
    match resolveTreeList ge name w assoc cs with
    | .error e => .error e
    | .ok (cs', w', a') => .ok (.node cs', w', a')
/-- `resolveTree` over a children tuple, threading world and associated slots
left to right. -/
def resolveTreeList (ge : LazyWorld → String → Nat →
      Except LazyError (List Elem × LazyWorld))
    (name : String) (w : LazyWorld) (assoc : List Sid) :
    TreeList Elem → Except LazyError (TreeList Elem × LazyWorld × List Sid)
  | .nil => .ok (.nil, w, assoc)
  | .cons t ts =>
    match resolveTree ge name w assoc t with
    | .error e => .error e
    | .ok (t', w1, a1) =>
      match resolveTreeList ge name w1 a1 ts with
      | .error e => .error e
      | .ok (ts', w2, a2) => .ok (.cons t' ts', w2, a2)
end

/-- Walk one parameter name chain (the `for name in parameter_name_chain`
loop), starting from a tree and applying `resolveTree` for each step. -/
def resolveChain (ge : LazyWorld → String → Nat →
      Except LazyError (List Elem × LazyWorld))
    (w : LazyWorld) (assoc : List Sid) (tree : TupleTree Elem) :
    List String → Except LazyError (TupleTree Elem × LazyWorld × List Sid)
  | [] => .ok (tree, w, assoc)
  | name :: names =>
    match resolveTree ge name w assoc tree with
    | .error e => .error e
    | .ok (tree', w1, a1) => resolveChain ge w1 a1 tree' names

/-- `get_parameter_trees_and_associated_variable_slots`: walk every declared
parameter name chain from the instance, returning the parameter trees and the
set of variable slots this computation transitively depends on. -/
def resolveChains (ge : LazyWorld → String → Nat →
      Except LazyError (List Elem × LazyWorld))
    (inst : Elem) (w : LazyWorld) (assoc : List Sid) :
    List (List String) →
    Except LazyError (List (TupleTree Elem) × LazyWorld × List Sid)
  | [] => .ok ([], w, assoc)
  | chain :: chains =>
    match resolveChain ge w assoc (.leaf inst) chain with
    | .error e => .error e
    | .ok (tree, w1, a1) =>
      match resolveChains ge inst w1 a1 chains with
      | .error e => .error e
      | .ok (trees, w2, a2) => .ok (tree :: trees, w2, a2)

/-- `LazyDescriptor.get_elements(instance)`, fuel-indexed to bound the
recursive dependency resolution (the source has no cycle guard).  Fetch the
instance's slot; if populated, return its elements' values directly.
Otherwise walk the parameter chains, register the parameter fingerprint,
consult the bounded cache, on a miss invoke the user method and register the
result (inserting it into the cache only when the freeze flag is set), store
tuple, fingerprint and dependency links into the slot, and return the
values. -/
def getElements : Nat → LazyWorld → String → Nat →
    Except LazyError (List Elem × LazyWorld)
  | 0, _, _, _ => .error .fuelExhausted
  | fuel + 1, w, name, inst =>
    match w.getSlot inst name with
    | .error e => .error e
    | .ok (slot, w1) =>
      match slot.elements with
      | some registeredElements =>
        .ok (registeredElements.map Registered.value, w1)
      | none =>
        match w1.findDescriptor name with
        | none => .error .missingDescriptor
        | some d =>
          match resolveChains (getElements fuel) inst w1 []
              d.parameterNameChains with
          | .error e => .error e
          | .ok (trees, w2, assoc) =>
            match w2.findDescriptor name with
            | none => .error .missingDescriptor
            | some d2 =>
              let pk := parameterKeyOfTrees trees
              match d2.parameterKeyRegistration.register pk pk with
              | (kh, pkReg1) =>
                let d3 := { d2 with parameterKeyRegistration := pkReg1 }
                match d3.cache.get kh.id with
                | some registeredElements =>
                  let w3 := ((w2.setDescriptor name d3).slotSet (inst, name)
                    registeredElements (some kh.id) assoc)
                  .ok (registeredElements.map Registered.value, w3)
                | none =>
                  let d4 := { d3 with callCount := d3.callCount + 1 }
                  match d4.registerElements (d4.methodFn trees) with
                  | (registeredElements, d5) =>
                    match (if d5.freeze then
                             match d5.cache.set kh.id registeredElements with
                             | .error e =>
                               Except.error (LazyError.cacheFailure e)
                             | .ok cache' =>
                               Except.ok { d5 with cache := cache' }
                           else Except.ok d5) with
                    | .error e => .error e
                    | .ok d6 =>
                      let w3 := ((w2.setDescriptor name d6).slotSet
                        (inst, name) registeredElements (some kh.id) assoc)
                      .ok (registeredElements.map Registered.value, w3)

/-- `LazyDescriptor.set_elements(instance, elements)`: fetch the slot, check
writability (read-only error on a Property slot, before anything else runs),
register the new elements, return unchanged if the registered tuple equals the
slot's current tuple, otherwise expire every dependent slot and then store the
new tuple with no fingerprint and no dependency links. -/
def setElements (w : LazyWorld) (name : String) (inst : Nat)
    (elements : List Elem) : Except LazyError LazyWorld :=
  match w.getSlot inst name with
  | .error e => .error e
  | .ok (slot, w1) =>
    if slot.isVariableSlot = false then .error .readOnlyAttribute
    else
      match w1.findDescriptor name with
      | none => .error .missingDescriptor
      | some d =>
        match d.registerElements elements with
        | (registeredElements, d1) =>
          let w2 := w1.setDescriptor name d1
          if slot.elements = some registeredElements then .ok w2
          else
            let w3 := slot.linkedSlotIds.foldl
              (fun acc sid => acc.expireSlot sid) w2
            .ok (w3.slotSet (inst, name) registeredElements none [])

/-! ## Declaration-time checks -/

/-- The assertion failures that `LazyDescriptor.__init__` can raise, in source
order.  (The initial `assert isinstance(method, staticmethod)` is a typing
artifact with no counterpart in this model.) -/
inductive DeclError where
  | hasherContract
  | badName
  | variableWithParameters
deriving DecidableEq, Repr

/-- Python `name.split("__")` over the character list: split on each
non-overlapping occurrence of a double underscore, left to right.  Names are
handled at the character level here because the built-in string operations do
not reduce inside the kernel. -/
def splitOnDoubleUnderscore : List Char → List (List Char)
  | [] => [[]]
  | '_' :: '_' :: rest => [] :: splitOnDoubleUnderscore rest
  | c :: rest =>
    match splitOnDoubleUnderscore rest with
    | [] => [[c]]
    | piece :: pieces => (c :: piece) :: pieces

/-- Python `"__" in name`: splitting on double underscores yields more than
one piece. -/
def containsDoubleUnderscore (name : List Char) : Bool :=
  (splitOnDoubleUnderscore name).length != 1

/-- Python `name.startswith("_")`. -/
def startsWithUnderscore : List Char → Bool
  | '_' :: _ => true
  | _ => false

/-- Python `name.endswith("_")`. -/
def endsWithUnderscore (name : List Char) : Bool :=
  startsWithUnderscore name.reverse

/-- The parameter name chains computed in `LazyDescriptor.__init__`: each
parameter name of the user method splits on `"__"` into a chain of attribute
names, each wrapped in single underscores
(`tuple(f"_{name_body}_" for name_body in parameter_name.split("__"))`). -/
def parameterNameChainsOf (parameterNames : List (List Char)) :
    List (List (List Char)) :=
  parameterNames.map (fun parameterName =>
    (splitOnDoubleUnderscore parameterName).map
      (fun nameBody => '_' :: (nameBody ++ ['_'])))

/-- The declaration-time checks of `LazyDescriptor.__init__` in source order:
`assert hasher is id or freeze`; then
`assert name.startswith("_") and name.endswith("_") and "__" not in name`;
then, after computing the parameter name chains,
`assert not is_variable or not parameter_name_chains`.  Returns the computed
parameter name chains on success.  There is no check rejecting a
non-variable (Property) declaration whose parameter name chains are empty. -/
def lazyDescriptorInitChecks (methodName : List Char)
    (parameterNames : List (List Char)) (isVariable : Bool)
    (hasherIsId : Bool) (freeze : Bool) :
    Except DeclError (List (List (List Char))) :=
  if ¬(hasherIsId || freeze) then .error .hasherContract
  else if ¬(startsWithUnderscore methodName && endsWithUnderscore methodName
            && !containsDoubleUnderscore methodName) then .error .badName
  else
    let chains := parameterNameChainsOf parameterNames
    if isVariable && !chains.isEmpty then .error .variableWithParameters
    else .ok chains

/-- From `utils/lazy.py`: `_lazy_descriptor.parameters` holds one entry per
parameter of the user method, and `lazy_property.__init__` runs
`assert self.parameters` — a legacy property declaration is accepted iff the
method has at least one parameter. -/
def lazyPropertyInitOK (parameterNames : List (List Char)) : Bool :=
  !parameterNames.isEmpty

/-- From `utils/lazy.py`: `lazy_basedata.__init__` runs
`assert not self.parameters` — a legacy base-data (variable) declaration is
accepted iff the method has no parameters. -/
def lazyBasedataInitOK (parameterNames : List (List Char)) : Bool :=
  parameterNames.isEmpty

/-! ## Concrete configurations used for instantiation -/

/-- A variable descriptor: no parameter chains, identity hash, frozen, and a
default factory returning element 42. -/
def varDescriptor : LazyDescriptor :=
  { parameterNameChains := []
    isVariable := true
    isPlural := false
    hasher := fun e => e
    freeze := true
    methodFn := fun _ => [42]
    cache := Cache.empty 128
    parameterKeyRegistration := Registration.empty
    elementRegistration := Registration.empty
    callCount := 0 }

/-- A non-frozen property descriptor reading the single variable `_v_` (the
source requires `hasher is id` when the freeze flag is off). -/
def propDescriptor : LazyDescriptor :=
  { parameterNameChains := [["_v_"]]
    isVariable := false
    isPlural := false
    hasher := fun e => e
    freeze := false
    methodFn := fun _ => [99]
    cache := Cache.empty 128
    parameterKeyRegistration := Registration.empty
    elementRegistration := Registration.empty
    callCount := 0 }

/-- A world whose variable slot `(0, "_v_")` is already populated. -/
def hitWorld : LazyWorld :=
  { descriptors := [("_v_", varDescriptor)]
    slots := [((0, "_v_"), ⟨some [⟨0, 42⟩], none, [], true⟩)] }

/-- A world with a fresh, empty property slot `(0, "_q_")` over the variable
`_v_` whose own slot does not exist yet. -/
def probeWorld : LazyWorld :=
  { descriptors := [("_v_", varDescriptor), ("_q_", propDescriptor)]
    slots := [((0, "_q_"), ⟨none, none, [], false⟩)] }

/-- A variable descriptor whose element registration already holds the handle
`⟨0, 4⟩` for element 4. -/
def invVarDescriptor : LazyDescriptor :=
  { parameterNameChains := []
    isVariable := true
    isPlural := false
    hasher := fun e => e
    freeze := true
    methodFn := fun _ => [4]
    cache := Cache.empty 128
    parameterKeyRegistration := Registration.empty
    elementRegistration := ⟨[(4, ⟨0, 4⟩)], 1⟩
    callCount := 0 }

/-- The populated variable slot of `invWorld`: holds the handle `⟨0, 4⟩` and
is linked to the dependent property slot `(0, "_dep_")`. -/
def invVarSlot : LazySlot := ⟨some [⟨0, 4⟩], none, [(0, "_dep_")], true⟩

/-- A world with variable `_m_` (slot populated with element 4) and a
dependent property slot `(0, "_dep_")` currently populated and linked back. -/
def invWorld : LazyWorld :=
  { descriptors := [("_m_", invVarDescriptor), ("_dep_", propDescriptor)]
    slots :=
      [((0, "_m_"), invVarSlot),
       ((0, "_dep_"), ⟨some [⟨1, 8⟩], some 0, [(0, "_m_")], false⟩)] }

/-- The result of the dependency walk of the probe read (used to instantiate
the cache-insertion theorem). -/
def probeWalk : Except LazyError (List (TupleTree Elem) × LazyWorld × List Sid) :=
  resolveChains (getElements 3) 0 probeWorld [] propDescriptor.parameterNameChains

/-- The parameter trees produced by `probeWalk`. -/
def probeTrees : List (TupleTree Elem) :=
  match probeWalk with
  | .ok (trees, _, _) => trees
  | _ => []

/-- The world produced by `probeWalk`. -/
def probeW2 : LazyWorld :=
  match probeWalk with
  | .ok (_, w, _) => w
  | _ => probeWorld

/-- The associated variable slots produced by `probeWalk`. -/
def probeAssoc : List Sid :=
  match probeWalk with
  | .ok (_, _, assoc) => assoc
  | _ => []

/-- The descriptor state of `_q_` after `probeWalk`. -/
def probeD2 : LazyDescriptor :=
  match probeW2.findDescriptor "_q_" with
  | some d => d
  | none => propDescriptor

/-- The fingerprint registration step of the probe read. -/
def probeKreg : Registered ParamKey × Registration ParamKey ParamKey :=
  probeD2.parameterKeyRegistration.register (parameterKeyOfTrees probeTrees)
    (parameterKeyOfTrees probeTrees)

/-- The descriptor state of `_q_` right before the user method's result is
registered: fingerprint registration recorded, call count bumped. -/
def probeD4 : LazyDescriptor :=
  { probeD2 with parameterKeyRegistration := probeKreg.2,
                 callCount := probeD2.callCount + 1 }

/-- The element-registration step of the probe read. -/
def probeRegs : List (Registered Elem) × LazyDescriptor :=
  probeD4.registerElements (probeD2.methodFn probeTrees)

/-- A registration holding one live handle, `⟨0, 7⟩` under key 5. -/
def sampleRegistration : Registration Nat Nat := ⟨[(5, ⟨0, 7⟩)], 1⟩

/-- The state of a slot after `expire()`: empty, fingerprint cleared, links
and writability untouched. -/
def expiredSlot (s : LazySlot) : LazySlot :=
  { s with elements := none, parameterKey := none }

/-! ## Theorems -/

theorem lookupA_append_of_none [DecidableEq K] {l : List (K × V)} {k : K}
    (h : lookupA l k = none) (l₂ : List (K × V)) :
    lookupA (l ++ l₂) k = lookupA l₂ k := by
  induction l with
  | nil => rfl
  | cons p l ih =>
    obtain ⟨k', v'⟩ := p
    by_cases hk : k' = k
    · simp [lookupA, hk] at h
    · simp only [lookupA, List.cons_append, if_neg hk] at h ⊢
      exact ih h

/-- **C5.** `Registration.register(key, value)`: if a live handle exists for
an equal key it is returned and the registration is untouched; otherwise a
fresh handle wrapping `value` is created, stored under the key, and returned;
the operation is a total function (it never raises).  Consequently at most one
live handle exists per distinct key, and two `register` calls with equal keys
return the identical handle. -/
theorem registration_register_correct [DecidableEq K] (r : Registration K V)
    (k : K) (v v' : V) :
    (∀ h, r.get k = some h → r.register k v = (h, r)) ∧
    (r.get k = none →
      r.register k v =
        (⟨r.nextId, v⟩,
         ⟨r.entries ++ [(k, ⟨r.nextId, v⟩)], r.nextId + 1⟩) ∧
      (r.register k v).2.get k = some ⟨r.nextId, v⟩) ∧
    ((r.register k v).2.register k v').1 = (r.register k v).1 := by
  have hreg : ∀ h, r.get k = some h → r.register k v = (h, r) := by
    intro h hh
    simp [Registration.register, hh]
  have hfresh : r.get k = none →
      r.register k v =
        (⟨r.nextId, v⟩,
         ⟨r.entries ++ [(k, ⟨r.nextId, v⟩)], r.nextId + 1⟩) ∧
      (r.register k v).2.get k = some ⟨r.nextId, v⟩ := by
    intro hn
    have h1 : r.register k v =
        (⟨r.nextId, v⟩,
         ⟨r.entries ++ [(k, ⟨r.nextId, v⟩)], r.nextId + 1⟩) := by
      simp [Registration.register, hn]
    refine ⟨h1, ?_⟩
    rw [h1]
    have hn' : lookupA r.entries k = none := hn
    show lookupA (r.entries ++ [(k, ⟨r.nextId, v⟩)]) k = _
    rw [lookupA_append_of_none hn']
    simp [lookupA]
  refine ⟨hreg, hfresh, ?_⟩
  cases hr : r.get k with
  | some h =>
    rw [hreg h hr]
    simp [Registration.register, hr]
  | none =>
    obtain ⟨h1, h2⟩ := hfresh hr
    rw [h1] at h2 ⊢
    simp [Registration.register, h2]

/-- Witness for `registration_register_correct`: registering key 3 in the
empty registration allocates the handle `⟨0, 8⟩` and stores it. -/
theorem registration_register_correct_witness :
    (Registration.empty : Registration Nat Nat).get 3 = none ∧
    (Registration.empty : Registration Nat Nat).register 3 8 =
      (⟨0, 8⟩, ⟨[(3, ⟨0, 8⟩)], 1⟩) :=
  ⟨rfl, ((registration_register_correct Registration.empty 3 8 8).2.1 rfl).1⟩

/-- **C9.** When a live handle already exists for an equal key,
`Registration.register` returns that handle with its originally wrapped value
and discards the new value argument entirely: the registration state is
unchanged and the new value is never stored. -/
theorem registration_register_discards_new_value [DecidableEq K]
    (r : Registration K V) (k : K) (h : Registered V) (v₂ : V)
    (hlive : r.get k = some h) : r.register k v₂ = (h, r) := by
  simp [Registration.register, hlive]

/-- Witness for `registration_register_discards_new_value`: re-registering
key 5 with the different value 99 returns the original handle `⟨0, 7⟩`
(wrapping 7) and leaves the registration unchanged. -/
theorem registration_register_discards_new_value_witness :
    sampleRegistration.get 5 = some ⟨0, 7⟩ ∧
    sampleRegistration.register 5 99 = (⟨0, 7⟩, sampleRegistration) :=
  ⟨rfl,
   registration_register_discards_new_value sampleRegistration 5 ⟨0, 7⟩ 99 rfl⟩

/-- A successful `Cache.set` keeps the capacity and never grows the entry
list beyond the capacity. -/
theorem cache_set_ok_spec [DecidableEq K] {c c' : Cache K V} {k : K} {v : V}
    (h : c.set k v = .ok c') :
    c'.capacity = c.capacity ∧
    (c.entries.length ≤ c.capacity → c'.entries.length ≤ c.capacity) := by
  unfold Cache.set at h
  split at h
  · exact absurd h (by simp)
  · split at h
    · rename_i hlen
      cases hc : c.entries with
      | nil => rw [hc] at h; exact absurd h (by simp)
      | cons p rest =>
        rw [hc] at h
        simp only [Except.ok.injEq] at h
        subst h
        refine ⟨rfl, fun _ => ?_⟩
        simp only [List.length_append, List.length_cons, List.length_nil]
        rw [hc, List.length_cons] at hlen
        omega
    · rename_i hlen
      simp only [Except.ok.injEq] at h
      subst h
      refine ⟨rfl, fun hb => ?_⟩
      simp only [List.length_append, List.length_cons, List.length_nil]
      omega

/-- A `Cache.set` performed when the entry count equals the capacity drops
exactly the oldest entry (the head of the insertion order) and appends the new
entry at the end. -/
theorem cache_set_full_evicts_oldest [DecidableEq K] {c c' : Cache K V}
    {k : K} {v : V} (hfull : c.entries.length = c.capacity)
    (h : c.set k v = .ok c') :
    ∃ oldest rest, c.entries = oldest :: rest ∧
      c'.entries = rest ++ [(k, v)] := by
  unfold Cache.set at h
  by_cases hk : (c.get k).isSome
  · rw [if_pos hk] at h
    exact absurd h (by simp)
  · rw [if_neg hk, if_pos hfull] at h
    cases hc : c.entries with
    | nil => rw [hc] at h; exact absurd h (by simp)
    | cons p rest =>
      rw [hc] at h
      simp only [Except.ok.injEq] at h
      subst h
      exact ⟨p, rest, rfl, rfl⟩

/-- Running a sequence of `Cache.set` calls preserves the capacity and the
entry-count bound. -/
theorem cache_runSets_bound [DecidableEq K] :
    ∀ (kvs : List (K × V)) (c final : Cache K V),
      c.runSets kvs = .ok final → c.entries.length ≤ c.capacity →
      final.entries.length ≤ final.capacity ∧ final.capacity = c.capacity := by
  intro kvs
  induction kvs with
  | nil =>
    intro c final h hb
    unfold Cache.runSets at h
    simp only [Except.ok.injEq] at h
    subst h
    exact ⟨hb, rfl⟩
  | cons kv kvs ih =>
    intro c final h hb
    obtain ⟨k, v⟩ := kv
    unfold Cache.runSets at h
    split at h
    · exact absurd h (by simp)
    · rename_i c₁ hset
      obtain ⟨hcap, hlen⟩ := cache_set_ok_spec hset
      obtain ⟨h1, h2⟩ := ih c₁ final h (by rw [hcap]; exact hlen hb)
      exact ⟨h1, by rw [h2, hcap]⟩

/-- **C4.** For every cache of capacity at least 1 and every sequence of
`set` calls with fresh keys starting from the empty cache, the entry count
never exceeds the capacity; and a `set` performed when the cache holds exactly
`capacity` entries first evicts exactly one entry — the one whose key was
inserted earliest among those still present (plain FIFO; `Cache.get` does not
reorder entries, so a lookup hit never changes the eviction order) — and then
inserts the new entry. -/
theorem cache_fifo_bound [DecidableEq K] (capacity : Nat)
    (kvs : List (K × V)) (final : Cache K V) (_hcap : 1 ≤ capacity)
    (hrun : (Cache.empty capacity : Cache K V).runSets kvs = .ok final) :
    final.entries.length ≤ capacity ∧
    ∀ (c c' : Cache K V) (k : K) (v : V), c.capacity = capacity →
      c.entries.length = capacity → c.set k v = .ok c' →
      ∃ oldest rest, c.entries = oldest :: rest ∧
        c'.entries = rest ++ [(k, v)] ∧
        c'.entries.length = capacity := by
  constructor
  · obtain ⟨h1, h2⟩ := cache_runSets_bound kvs (Cache.empty capacity) final
      hrun (by simp [Cache.empty])
    rw [h2] at h1
    exact h1
  · intro c c' k v hc hfull hset
    obtain ⟨oldest, rest, he, he'⟩ :=
      cache_set_full_evicts_oldest (by rw [hfull, hc]) hset
    refine ⟨oldest, rest, he, he', ?_⟩
    rw [he']
    rw [he, List.length_cons] at hfull
    simp only [List.length_append, List.length_cons, List.length_nil]
    omega

/-- Witness for `cache_fifo_bound`: three fresh inserts into a capacity-2
cache keep two entries and the third insert evicts the first. -/
theorem cache_fifo_bound_witness :
    (Cache.empty 2 : Cache Nat Nat).runSets [(1, 10), (2, 20), (3, 30)] =
      .ok ⟨2, [(2, 20), (3, 30)]⟩ ∧
    (⟨2, [(2, 20), (3, 30)]⟩ : Cache Nat Nat).entries.length ≤ 2 :=
  ⟨by rfl,
   (cache_fifo_bound 2 [(1, 10), (2, 20), (3, 30)] ⟨2, [(2, 20), (3, 30)]⟩
     (by omega) (by rfl)).1⟩

/-- **C10.** On a cache constructed with capacity 0, the very first `set` on
the empty cache fails: the eviction branch (taken because the entry count 0
equals the capacity 0) pops from an empty mapping, which raises
`StopIteration` rather than inserting or silently dropping the entry.  For
every capacity at least 1, `set` always succeeds provided the key is not
already present. -/
theorem cache_capacity_zero_set_errors :
    (Cache.empty 0 : Cache Nat Nat).set 0 0 = .error .popEmpty ∧
    ∀ (c : Cache Nat Nat) (k v : Nat), 1 ≤ c.capacity → c.get k = none →
      ∃ c', c.set k v = .ok c' := by
  constructor
  · rfl
  · intro c k v hcap hfresh
    unfold Cache.set
    rw [hfresh]
    simp only [Option.isSome_none, Bool.false_eq_true, if_false]
    by_cases hlen : c.entries.length = c.capacity
    · rw [if_pos hlen]
      cases hc : c.entries with
      | nil => rw [hc] at hlen; simp at hlen; omega
      | cons p rest => exact ⟨_, rfl⟩
    · rw [if_neg hlen]
      exact ⟨_, rfl⟩

/-- Witness for `cache_capacity_zero_set_errors`: a fresh insert into an
empty capacity-1 cache succeeds. -/
theorem cache_capacity_zero_set_errors_witness :
    1 ≤ (Cache.empty 1 : Cache Nat Nat).capacity ∧
    ∃ c', (Cache.empty 1 : Cache Nat Nat).set 7 8 = .ok c' :=
  ⟨by decide,
   cache_capacity_zero_set_errors.2 (Cache.empty 1) 7 8 (by decide) rfl⟩

/-- **C8 counterexample.** `LazyDescriptor.__init__` accepts a Property
declaration (`is_variable = False`) whose user method has no parameters at
all: every assertion passes and the empty chain tuple is returned, so the
claimed declaration-time failure for a zero-parameter Property does not
happen in `lazy_descriptor.py`. -/
theorem lazy_descriptor_accepts_property_without_parameters :
    lazyDescriptorInitChecks "_p_".data [] false true true = .ok [] := by rfl

/-- **C8 amended.** In `LazyDescriptor.__init__` only the Variable direction
of the declaration contract is checked: a Variable declaration accepted
without error has no parameter name chains, and a Variable declared with any
parameter is rejected.  The legacy `utils/lazy.py` descriptors enforce both
directions (`lazy_property` requires at least one parameter, `lazy_basedata`
requires none).  A Property declared through `LazyDescriptor.__init__` with
zero parameter name chains is accepted. -/
theorem declaration_contract_amended :
    (∀ (methodName : List Char) (parameterNames : List (List Char))
       (hasherIsId freeze : Bool) (chains : List (List (List Char))),
       lazyDescriptorInitChecks methodName parameterNames true hasherIsId
         freeze = .ok chains → chains = []) ∧
    (∀ (methodName : List Char) (parameterNames : List (List Char))
       (hasherIsId freeze : Bool) (chains : List (List (List Char))),
       parameterNames ≠ [] →
       lazyDescriptorInitChecks methodName parameterNames true hasherIsId
         freeze ≠ .ok chains) ∧
    (∀ parameterNames, lazyPropertyInitOK parameterNames = true ↔
       parameterNames ≠ []) ∧
    (∀ parameterNames, lazyBasedataInitOK parameterNames = true ↔
       parameterNames = []) ∧
    lazyDescriptorInitChecks "_p_".data [] false true true = .ok [] := by
  have hvar : ∀ (methodName : List Char) (parameterNames : List (List Char))
      (hasherIsId freeze : Bool) (chains : List (List (List Char))),
      lazyDescriptorInitChecks methodName parameterNames true hasherIsId
        freeze = .ok chains → chains = [] := by
    intro methodName parameterNames hasherIsId freeze chains h
    unfold lazyDescriptorInitChecks at h
    split at h
    · exact absurd h (by simp)
    · split at h
      · exact absurd h (by simp)
      · dsimp only at h
        split at h
        · exact absurd h (by simp)
        · rename_i hc
          simp only [Except.ok.injEq] at h
          subst h
          simp only [Bool.true_and, Bool.not_eq_true'] at hc
          exact List.isEmpty_iff.mp (Bool.not_eq_false _ |>.mp hc)
  refine ⟨hvar, ?_, ?_, ?_, by rfl⟩
  · intro methodName parameterNames hasherIsId freeze chains hne h
    have := hvar methodName parameterNames hasherIsId freeze chains h
    subst this
    unfold lazyDescriptorInitChecks at h
    split at h
    · exact absurd h (by simp)
    · split at h
      · exact absurd h (by simp)
      · dsimp only at h
        split at h
        · exact absurd h (by simp)
        · simp only [Except.ok.injEq] at h
          have : parameterNames.length = 0 := by
            have hl := congrArg List.length h
            simpa [parameterNameChainsOf] using hl
          exact hne (List.length_eq_zero.mp this)
  · intro parameterNames
    unfold lazyPropertyInitOK
    cases parameterNames <;> simp
  · intro parameterNames
    unfold lazyBasedataInitOK
    cases parameterNames <;> simp [List.isEmpty_iff]

/-- Witness for `declaration_contract_amended`: an accepted Variable
declaration indeed has no parameter chains, and a one-parameter legacy
property declaration is accepted. -/
theorem declaration_contract_amended_witness :
    lazyDescriptorInitChecks "_v_".data [] true true true = .ok [] ∧
    lazyPropertyInitOK ["x".data] = true :=
  ⟨by rfl,
   (declaration_contract_amended.2.2.1 ["x".data]).mpr (by simp)⟩

/-! ### Association-list and world lemmas -/

theorem lookupA_updateA_self [DecidableEq K] :
    ∀ (l : List (K × V)) (k : K) (v : V), lookupA (updateA l k v) k = some v := by
  intro l k v
  induction l with
  | nil => simp [updateA, lookupA]
  | cons p l ih =>
    obtain ⟨k', v'⟩ := p
    by_cases hk : k' = k
    · subst hk
      simp [updateA, lookupA]
    · simp [updateA, lookupA, hk, ih]

theorem lookupA_updateA_ne [DecidableEq K] :
    ∀ (l : List (K × V)) (k k' : K) (v : V), k' ≠ k →
      lookupA (updateA l k v) k' = lookupA l k' := by
  intro l k k' v hne
  induction l with
  | nil => simp [updateA, lookupA, Ne.symm hne]
  | cons p l ih =>
    obtain ⟨k₀, v₀⟩ := p
    by_cases hk : k₀ = k
    · subst hk
      simp [updateA, lookupA, Ne.symm hne]
    · simp [updateA, lookupA, hk, ih]

theorem updateA_self_id [DecidableEq K] :
    ∀ (l : List (K × V)) (k : K) (v : V), lookupA l k = some v →
      updateA l k v = l := by
  intro l k v
  induction l with
  | nil => intro h; simp [lookupA] at h
  | cons p l ih =>
    obtain ⟨k₀, v₀⟩ := p
    intro h
    by_cases hk : k₀ = k
    · subst hk
      simp [lookupA] at h
      subst h
      simp [updateA]
    · simp only [lookupA] at h
      rw [if_neg hk] at h
      simp only [updateA]
      rw [if_neg hk, ih h]

theorem findSlot_setSlotState (w : LazyWorld) (sid x : Sid) (s : LazySlot) :
    (w.setSlotState sid s).findSlot x =
      if x = sid then some s else w.findSlot x := by
  by_cases hx : x = sid
  · subst hx
    simp only [if_pos rfl]
    exact lookupA_updateA_self w.slots x s
  · rw [if_neg hx]
    exact lookupA_updateA_ne w.slots sid x s hx

theorem setDescriptor_findSlot (w : LazyWorld) (n : String)
    (d : LazyDescriptor) (x : Sid) :
    (w.setDescriptor n d).findSlot x = w.findSlot x := rfl

theorem findDescriptor_setDescriptor_self (w : LazyWorld) (n : String)
    (d : LazyDescriptor) :
    (w.setDescriptor n d).findDescriptor n = some d :=
  lookupA_updateA_self w.descriptors n d

theorem setDescriptor_self (w : LazyWorld) (n : String) (d : LazyDescriptor)
    (hd : w.findDescriptor n = some d) : w.setDescriptor n d = w := by
  unfold LazyWorld.setDescriptor
  rw [updateA_self_id w.descriptors n d hd]

theorem expireSlot_findSlot (w : LazyWorld) (sid x : Sid) :
    (w.expireSlot sid).findSlot x =
      if x = sid then (w.findSlot x).map expiredSlot else w.findSlot x := by
  unfold LazyWorld.expireSlot
  cases hsid : w.findSlot sid with
  | none =>
    by_cases hx : x = sid
    · subst hx
      rw [if_pos rfl, hsid]
      rfl
    · rw [if_neg hx]
  | some s =>
    rw [findSlot_setSlotState]
    by_cases hx : x = sid
    · subst hx
      rw [if_pos rfl, if_pos rfl, hsid]
      rfl
    · rw [if_neg hx, if_neg hx]

theorem map_expiredSlot_idem (o : Option LazySlot) :
    o.map (expiredSlot ∘ expiredSlot) = o.map expiredSlot := by
  cases o <;> rfl

theorem expireFold_findSlot :
    ∀ (sids : List Sid) (w : LazyWorld) (x : Sid),
      ((sids.foldl (fun acc sid => acc.expireSlot sid) w).findSlot x) =
        if x ∈ sids then (w.findSlot x).map expiredSlot
        else w.findSlot x := by
  intro sids
  induction sids with
  | nil => intro w x; simp
  | cons a as ih =>
    intro w x
    simp only [List.foldl_cons]
    rw [ih (w.expireSlot a) x, expireSlot_findSlot]
    by_cases hxa : x = a
    · subst hxa
      by_cases hxs : x ∈ as
      · simp [hxs, map_expiredSlot_idem]
      · simp [hxs]
    · by_cases hxs : x ∈ as
      · simp [hxa, hxs]
      · simp [hxa, hxs]

theorem expireFold_descriptors :
    ∀ (sids : List Sid) (w : LazyWorld),
      (sids.foldl (fun acc sid => acc.expireSlot sid) w).descriptors =
        w.descriptors := by
  intro sids
  induction sids with
  | nil => intro w; rfl
  | cons a as ih =>
    intro w
    simp only [List.foldl_cons]
    rw [ih (w.expireSlot a)]
    unfold LazyWorld.expireSlot
    cases w.findSlot a <;> rfl

theorem slotSet_nil_findSlot (w : LazyWorld) (sid : Sid)
    (elems : List (Registered Elem)) (pk : Option Nat) (x : Sid) :
    (w.slotSet sid elems pk []).findSlot x =
      if x = sid then
        (w.findSlot x).map (fun s =>
          { s with elements := some elems, parameterKey := pk,
                   linkedSlotIds := [] })
      else w.findSlot x := by
  unfold LazyWorld.slotSet
  cases hsid : w.findSlot sid with
  | none =>
    by_cases hx : x = sid
    · subst hx
      rw [if_pos rfl, hsid]
      rfl
    · rw [if_neg hx]
  | some s =>
    simp only [List.foldl_nil]
    rw [findSlot_setSlotState]
    by_cases hx : x = sid
    · subst hx
      rw [if_pos rfl, if_pos rfl, hsid]
      rfl
    · rw [if_neg hx, if_neg hx]

/-! ### Claim theorems about the descriptor machinery -/

/-- **C1.** When the instance's slot for a descriptor is populated,
`get_elements` returns the stored registered elements' values directly and
the world is returned entirely unchanged: no parameter fingerprint is
registered, the bounded cache is untouched, and the user method is not
invoked (the call count is unchanged).  Since the world is unchanged, a
repeated read reduces to the identical call and returns values drawn from the
identical registered handles — so repeated reads with no intervening writes
are handle-identical and invoke the user method at most once. -/
theorem get_elements_instance_hit (fuel : Nat) (w : LazyWorld)
    (name : String) (inst : Nat) (s : LazySlot)
    (regs : List (Registered Elem))
    (hs : w.findSlot (inst, name) = some s)
    (he : s.elements = some regs) :
    getElements (fuel + 1) w name inst =
      .ok (regs.map Registered.value, w) := by
  simp only [getElements, LazyWorld.getSlot, hs, he]

/-- Witness for `get_elements_instance_hit`: reading the populated variable
slot of `hitWorld` returns `[42]` and leaves the world unchanged. -/
theorem get_elements_instance_hit_witness :
    hitWorld.findSlot (0, "_v_") = some ⟨some [⟨0, 42⟩], none, [], true⟩ ∧
    getElements 1 hitWorld "_v_" 0 = .ok ([42], hitWorld) :=
  ⟨rfl, get_elements_instance_hit 0 hitWorld "_v_" 0 _ [⟨0, 42⟩] rfl rfl⟩

/-- **C6.** Writing a Property-backed attribute fails with the read-only
attribute error: `check_writability` runs before anything else, so the error
is returned before any element is registered or any slot mutated, and no new
world is produced — the caller's state is left entirely unchanged. -/
theorem set_elements_read_only (w : LazyWorld) (name : String) (inst : Nat)
    (elements : List Elem) (s : LazySlot)
    (hs : w.findSlot (inst, name) = some s)
    (hprop : s.isVariableSlot = false) :
    setElements w name inst elements = .error .readOnlyAttribute := by
  simp only [setElements, LazyWorld.getSlot, hs, hprop, if_pos]

/-- Witness for `set_elements_read_only`: writing the property slot
`(0, "_dep_")` of `invWorld` raises the read-only error. -/
theorem set_elements_read_only_witness :
    invWorld.findSlot (0, "_dep_") =
      some ⟨some [⟨1, 8⟩], some 0, [(0, "_m_")], false⟩ ∧
    setElements invWorld "_dep_" 0 [1] = .error .readOnlyAttribute :=
  ⟨rfl, set_elements_read_only invWorld "_dep_" 0 [1] _ rfl rfl⟩

/-- Unfolding equation for `registerElemsAux` on a cons, in projection
form. -/
theorem registerElemsAux_cons (hasher : Elem → Nat)
    (reg : Registration Nat Elem) (e : Elem) (es : List Elem) :
    registerElemsAux hasher reg (e :: es) =
      ((reg.register (hasher e) e).1 ::
        (registerElemsAux hasher (reg.register (hasher e) e).2 es).1,
       (registerElemsAux hasher (reg.register (hasher e) e).2 es).2) := rfl

/-- If registering a list of elements returns exactly a list of handles whose
ids all predate the registration's allocation counter, then every `register`
call was a lookup hit and the registration is returned unchanged. -/
theorem registerElemsAux_eq_of_result_eq (hasher : Elem → Nat) :
    ∀ (elems : List Elem) (reg : Registration Nat Elem)
      (old : List (Registered Elem)),
      (∀ h ∈ old, h.id < reg.nextId) →
      (registerElemsAux hasher reg elems).1 = old →
      registerElemsAux hasher reg elems = (old, reg) := by
  intro elems
  induction elems with
  | nil =>
    intro reg old hinv hres
    unfold registerElemsAux at hres ⊢
    simp only at hres
    rw [← hres]
  | cons e es ih =>
    intro reg old hinv hres
    rw [registerElemsAux_cons] at hres ⊢
    cases hg : reg.get (hasher e) with
    | some h0 =>
      have hr : reg.register (hasher e) e = (h0, reg) := by
        simp [Registration.register, hg]
      rw [hr] at hres ⊢
      have htail := ih reg (registerElemsAux hasher reg es).1
        (fun x hx => hinv x (by rw [← hres]; exact List.mem_cons_of_mem _ hx))
        rfl
      have h2 : (registerElemsAux hasher reg es).2 = reg :=
        congrArg Prod.snd htail
      rw [← hres, h2]
    | none =>
      have hr : reg.register (hasher e) e =
          (⟨reg.nextId, e⟩,
           ⟨reg.entries ++ [(hasher e, ⟨reg.nextId, e⟩)], reg.nextId + 1⟩) := by
        simp [Registration.register, hg]
      rw [hr] at hres
      have hhead := hinv ⟨reg.nextId, e⟩
        (by rw [← hres]; exact List.mem_cons_self _ _)
      simp at hhead

/-- **C3.** Writing a Variable whose newly registered element tuple is
handle-identical to the slot's current tuple is a complete no-op: no
dependent slot is expired, the slot's elements, fingerprint and dependency
links are untouched, the registrations and cache are untouched, and the
returned world is exactly the input world.  (The hypothesis on handle ids is
the allocation invariant: every handle stored in a slot was allocated by the
descriptor's element registration, so its id predates the allocation
counter.) -/
theorem set_elements_same_value_noop (w : LazyWorld) (name : String)
    (inst : Nat) (elements : List Elem) (s : LazySlot) (d : LazyDescriptor)
    (old : List (Registered Elem))
    (hs : w.findSlot (inst, name) = some s)
    (hvar : s.isVariableSlot = true)
    (hd : w.findDescriptor name = some d)
    (hold : s.elements = some old)
    (hids : ∀ h ∈ old, h.id < d.elementRegistration.nextId)
    (hsame : (d.registerElements elements).1 = old) :
    setElements w name inst elements = .ok w := by
  have hreg : d.registerElements elements = (old, d) := by
    unfold LazyDescriptor.registerElements at hsame ⊢
    cases ha : registerElemsAux d.hasher d.elementRegistration elements with
    | mk hs' reg' =>
      rw [ha] at hsame
      simp only at hsame
      have hfix := registerElemsAux_eq_of_result_eq d.hasher elements
        d.elementRegistration old hids (by rw [ha]; exact hsame)
      rw [ha] at hfix
      simp only [Prod.mk.injEq] at hfix
      rw [hfix.1, hfix.2]
  simp only [setElements, LazyWorld.getSlot, hs, hvar, hd, hreg, hold]
  simp [setDescriptor_self w name d hd]

/-- Witness for `set_elements_same_value_noop`: re-writing the variable
`_m_` of `invWorld` with its current value 4 returns the world unchanged. -/
theorem set_elements_same_value_noop_witness :
    invWorld.findSlot (0, "_m_") = some invVarSlot ∧
    (invVarDescriptor.registerElements [4]).1 = [⟨0, 4⟩] ∧
    setElements invWorld "_m_" 0 [4] = .ok invWorld :=
  ⟨rfl, rfl,
   set_elements_same_value_noop invWorld "_m_" 0 [4] invVarSlot
     invVarDescriptor [⟨0, 4⟩] rfl rfl rfl rfl (by decide) rfl⟩

/-- **C2.** Writing a Variable with a value whose registered tuple differs
from the slot's current tuple first expires every dependent slot recorded on
the variable's slot and only then stores the new tuple (the returned world is
literally the expiration fold followed by the store, so all expirations
complete before `set_elements` returns): in the returned world every
dependent slot is empty — hence the next read of a dependent property finds
its slot empty and takes the recomputation path — and the variable's slot
holds exactly the new tuple with no fingerprint and an empty dependents
set. -/
theorem set_elements_expires_dependents (w : LazyWorld) (name : String)
    (inst : Nat) (elements : List Elem) (s : LazySlot) (d d1 : LazyDescriptor)
    (regs : List (Registered Elem))
    (hs : w.findSlot (inst, name) = some s)
    (hvar : s.isVariableSlot = true)
    (hd : w.findDescriptor name = some d)
    (hreg : d.registerElements elements = (regs, d1))
    (hch : s.elements ≠ some regs) :
    ∃ w', setElements w name inst elements = .ok w' ∧
      (∀ sid ∈ s.linkedSlotIds, sid ≠ (inst, name) →
        ∀ s', w'.findSlot sid = some s' → s'.elements = none) ∧
      w'.findSlot (inst, name) =
        some ⟨some regs, none, [], s.isVariableSlot⟩ := by
  have hrun : setElements w name inst elements =
      .ok ((s.linkedSlotIds.foldl (fun acc sid => acc.expireSlot sid)
        (w.setDescriptor name d1)).slotSet (inst, name) regs none []) := by
    simp only [setElements, LazyWorld.getSlot, hs, hvar, hd, hreg]
    rw [if_neg hch]
    rfl
  refine ⟨_, hrun, ?_, ?_⟩
  · intro sid hmem hne s' hfind
    rw [slotSet_nil_findSlot, if_neg hne, expireFold_findSlot, if_pos hmem,
      setDescriptor_findSlot] at hfind
    cases ht : w.findSlot sid with
    | none =>
      rw [ht] at hfind
      exact Option.noConfusion hfind
    | some t =>
      rw [ht] at hfind
      simp only [Option.map_some', Option.some.injEq] at hfind
      rw [← hfind]
      rfl
  · rw [slotSet_nil_findSlot, if_pos rfl, expireFold_findSlot,
      setDescriptor_findSlot, hs]
    by_cases hmem : (inst, name) ∈ s.linkedSlotIds
    · rw [if_pos hmem]
      rfl
    · rw [if_neg hmem]
      rfl

/-- Witness for `set_elements_expires_dependents`: writing 5 over the current
value 4 of `_m_` in `invWorld` expires the dependent slot `(0, "_dep_")` and
stores the fresh handle `⟨1, 5⟩` with an empty dependents set. -/
theorem set_elements_expires_dependents_witness :
    invWorld.findSlot (0, "_m_") = some invVarSlot ∧
    invVarDescriptor.registerElements [5] =
      ([⟨1, 5⟩],
       { invVarDescriptor with
          elementRegistration := ⟨[(4, ⟨0, 4⟩), (5, ⟨1, 5⟩)], 2⟩ }) ∧
    ∃ w', setElements invWorld "_m_" 0 [5] = .ok w' ∧
      (∀ sid ∈ invVarSlot.linkedSlotIds, sid ≠ (0, "_m_") →
        ∀ s', w'.findSlot sid = some s' → s'.elements = none) ∧
      w'.findSlot (0, "_m_") =
        some ⟨some [⟨1, 5⟩], none, [], invVarSlot.isVariableSlot⟩ :=
  ⟨rfl, rfl,
   set_elements_expires_dependents invWorld "_m_" 0 [5] invVarSlot
     invVarDescriptor
     { invVarDescriptor with
        elementRegistration := ⟨[(4, ⟨0, 4⟩), (5, ⟨1, 5⟩)], 2⟩ }
     [⟨1, 5⟩] rfl rfl rfl rfl (by decide)⟩

/-- `_register_elements` touches only the element registration: cache, call
count and freeze flag of the descriptor are unchanged. -/
theorem registerElements_preserves (d : LazyDescriptor) (es : List Elem) :
    (d.registerElements es).2.cache = d.cache ∧
    (d.registerElements es).2.callCount = d.callCount ∧
    (d.registerElements es).2.freeze = d.freeze := by
  unfold LazyDescriptor.registerElements
  exact ⟨rfl, rfl, rfl⟩

/-- The back-edge recording fold of `slotSet` never touches the descriptor
table. -/
theorem backlinkFold_descriptors (sid : Sid) :
    ∀ (assoc : List Sid) (w : LazyWorld),
      (assoc.foldl (fun acc a =>
        match acc.findSlot a with
        | none => acc
        | some sa =>
          if sid ∈ sa.linkedSlotIds then acc
          else acc.setSlotState a
            { sa with linkedSlotIds := sa.linkedSlotIds ++ [sid] }) w
      ).descriptors = w.descriptors := by
  intro assoc
  induction assoc with
  | nil => intro w; rfl
  | cons a as ih =>
    intro w
    simp only [List.foldl_cons]
    rw [ih]
    cases w.findSlot a with
    | none => rfl
    | some sa =>
      by_cases hmem : sid ∈ sa.linkedSlotIds
      · simp only [if_pos hmem]
      · simp only [if_neg hmem]
        rfl

/-- `slotSet` never touches the descriptor table. -/
theorem slotSet_descriptors (w : LazyWorld) (sid : Sid)
    (elems : List (Registered Elem)) (pk : Option Nat) (assoc : List Sid) :
    (w.slotSet sid elems pk assoc).descriptors = w.descriptors := by
  unfold LazyWorld.slotSet
  cases w.findSlot sid with
  | none => rfl
  | some s => exact backlinkFold_descriptors sid assoc _

theorem slotSet_findDescriptor (w : LazyWorld) (sid : Sid)
    (elems : List (Registered Elem)) (pk : Option Nat) (assoc : List Sid)
    (n : String) :
    (w.slotSet sid elems pk assoc).findDescriptor n = w.findDescriptor n := by
  unfold LazyWorld.findDescriptor
  rw [slotSet_descriptors]

/-- **C7.** On a read that misses both the instance slot and the bounded
cache, the user method is invoked (the call count rises by exactly one) and
the result is registered; the result tuple is inserted into the descriptor's
`Cache` under the fingerprint handle only when the freeze flag is set.  When
the freeze flag is off, the descriptor stored in the returned world carries
exactly the cache it had after dependency resolution — the read never inserts
the result, so a non-frozen result is not cached across calls and every such
read recomputes. -/
theorem get_elements_cache_insertion_iff_frozen
    (fuel : Nat) (w w2 : LazyWorld) (name : String) (inst : Nat)
    (s : LazySlot) (d d2 d5 : LazyDescriptor)
    (trees : List (TupleTree Elem)) (assoc : List Sid)
    (kh : Registered ParamKey) (pkReg1 : Registration ParamKey ParamKey)
    (regs : List (Registered Elem))
    (hs : w.findSlot (inst, name) = some s)
    (he : s.elements = none)
    (hd : w.findDescriptor name = some d)
    (hwalk : resolveChains (getElements fuel) inst w []
      d.parameterNameChains = .ok (trees, w2, assoc))
    (hd2 : w2.findDescriptor name = some d2)
    (hkreg : d2.parameterKeyRegistration.register (parameterKeyOfTrees trees)
      (parameterKeyOfTrees trees) = (kh, pkReg1))
    (hmiss : d2.cache.get kh.id = none)
    (hregs : ({ d2 with
                parameterKeyRegistration := pkReg1,
                callCount := d2.callCount + 1 } :
        LazyDescriptor).registerElements
        (d2.methodFn trees) = (regs, d5)) :
    d5.cache = d2.cache ∧ d5.callCount = d2.callCount + 1 ∧
    (d5.freeze = false →
      getElements (fuel + 1) w name inst =
        .ok (regs.map Registered.value,
          (w2.setDescriptor name d5).slotSet (inst, name) regs (some kh.id)
            assoc) ∧
      ((w2.setDescriptor name d5).slotSet (inst, name) regs (some kh.id)
          assoc).findDescriptor name = some d5) ∧
    (∀ cache', d5.freeze = true →
      d5.cache.set kh.id regs = .ok cache' →
      getElements (fuel + 1) w name inst =
        .ok (regs.map Registered.value,
          (w2.setDescriptor name { d5 with cache := cache' }).slotSet
            (inst, name) regs (some kh.id) assoc) ∧
      ((w2.setDescriptor name { d5 with cache := cache' }).slotSet
          (inst, name) regs (some kh.id) assoc).findDescriptor name =
        some { d5 with cache := cache' }) := by
  have hkreg' : d2.parameterKeyRegistration.register trees trees =
      (kh, pkReg1) := hkreg
  have h5 : (({ d2 with
      parameterKeyRegistration := pkReg1,
      callCount := d2.callCount + 1 } :
      LazyDescriptor).registerElements (d2.methodFn trees)).2 = d5 := by
    rw [hregs]
  have hcache : d5.cache = d2.cache := by
    rw [← h5]
    exact (registerElements_preserves _ _).1
  have hcount : d5.callCount = d2.callCount + 1 := by
    rw [← h5]
    exact (registerElements_preserves _ _).2.1
  refine ⟨hcache, hcount, ?_, ?_⟩
  · intro hf
    constructor
    · simp only [getElements, LazyWorld.getSlot, hs, he, hd, hwalk, hd2,
        parameterKeyOfTrees, hkreg', hmiss, hregs, hf]
      rfl
    · rw [slotSet_findDescriptor, findDescriptor_setDescriptor_self]
  · intro cache' hf hset
    constructor
    · simp only [getElements, LazyWorld.getSlot, hs, he, hd, hwalk, hd2,
        parameterKeyOfTrees, hkreg', hmiss, hregs, hf, hset]
      rfl
    · rw [slotSet_findDescriptor, findDescriptor_setDescriptor_self]

/-- Witness for `get_elements_cache_insertion_iff_frozen`: the probe read of
the non-frozen property `_q_` resolves its dependency `_v_`, invokes the user
method, and returns without inserting the result into the bounded cache. -/
theorem get_elements_cache_insertion_iff_frozen_witness :
    probeRegs.2.freeze = false ∧
    getElements 4 probeWorld "_q_" 0 =
      .ok (probeRegs.1.map Registered.value,
        (probeW2.setDescriptor "_q_" probeRegs.2).slotSet (0, "_q_")
          probeRegs.1 (some probeKreg.1.id) probeAssoc) :=
  ⟨rfl,
   ((get_elements_cache_insertion_iff_frozen 3 probeWorld probeW2 "_q_" 0
      ⟨none, none, [], false⟩ propDescriptor probeD2 probeRegs.2 probeTrees
      probeAssoc probeKreg.1 probeKreg.2 probeRegs.1 rfl rfl rfl rfl rfl rfl
      rfl rfl).2.2.1 rfl).1⟩

end Manim3Lazy
